import Mathlib

/-!
Shallow embedding of `tri_driver_common/include/tri_driver_common/utility.hpp`.

Conventions used throughout:
* C++ template functions over a totally ordered `T` become Lean functions
  over a `LinearOrder`.
* A C++ function that can `throw` becomes an `Option`- or `Except`-valued
  Lean function, with `none` / `Except.error` standing for the thrown
  exception.
* Fixed-width unsigned integers of width `w` are modelled as natural
  numbers, with every operation that the machine truncates followed by an
  explicit `% 2 ^ w`.
* `std::map` (ordered, unique keys) is modelled as an association list in
  iteration (key-ascending) order; `operator[]`-assignment is `mapInsert`,
  `find` is `mapLookup`, and map well-formedness (`mapWF`) is a strictly
  ascending key chain.
* Runtime addresses are passed explicitly: a function that inspects
  `(uintptr_t)&item` takes the numeric address as an argument.
-/

section Clamp

variable {α : Type} [LinearOrder α]

/-- `ClampValue` from utility.hpp: if `max >= min` return
`std::min(max, std::max(min, val))`, else throw `std::invalid_argument`.
The throw is modelled as `none`. -/
def ClampValue (val lo hi : α) : Option α :=
  if hi ≥ lo then some (Min.min hi (Max.max lo val)) else none

/-- `ClampValueAndWarn` from utility.hpp.  The result pairs the returned
value with a `Bool` recording whether a diagnostic line was written to the
error stream; the throw for `min > max` is modelled as `none` (the bounds
check happens before any clamping or logging, exactly as in the source). -/
def ClampValueAndWarn (val lo hi : α) : Option (α × Bool) :=
  if hi ≥ lo then
    if val < lo then some (lo, true)
    else if val > hi then some (hi, true)
    else some (val, false)
  else none

end Clamp

section Bits

/-- `SetBit` from utility.hpp, for a fixed-width unsigned type of `w` bits
(`w ∈ {8, 16, 32, 64}` in the source's static_assert).  `T update_mask = 1;
update_mask = update_mask << bit_position;` truncates the shifted value to
`w` bits on assignment, hence the `% 2 ^ w`; `~update_mask` on a `w`-bit
value is its complement within `w` bits, `(2 ^ w - 1) ^^^ update_mask`. -/
def SetBit (w : Nat) (current : Nat) (bit_position : Nat) (bit_value : Bool) :
    Nat :=
  let update_mask := (1 <<< bit_position) % 2 ^ w
  if bit_value then current ||| update_mask
  else current &&& ((2 ^ w - 1) ^^^ update_mask)

/-- `GetBit` from utility.hpp.  The source stores the mask built by
`SetBit((T)0, bit_position, true)` in a `const uint32_t`, truncating it to
32 bits even when `T` is `uint64_t`; the `% 2 ^ 32` reproduces that
truncation.  The result is `(mask & current) > 0`. -/
def GetBit (w : Nat) (current : Nat) (bit_position : Nat) : Bool :=
  let mask := SetBit w 0 bit_position true % 2 ^ 32
  decide (0 < mask &&& current)

end Bits

/-- C1 (failing evaluation): on the 64-bit type at bit position 32 — in
range for `uint64_t` — `GetBit (SetBit x 32 true) 32` returns `false`, not
`true` as claimed: `GetBit`'s `uint32_t mask` truncates the 64-bit mask
`2 ^ 32` to `0`. -/
theorem getBit_setBit_uint64_bug :
    GetBit 64 (SetBit 64 0 32 true) 32 = false := by decide

/-- C6: for `w ∈ {8,16,32,64}`, a `w`-bit value `x` and `pos < w`,
`SetBit x pos b` has bit `pos` equal to `b` and every other bit equal to the
corresponding bit of `x`. -/
theorem setBit_spec (w x pos : Nat) (b : Bool)
    (_hw : w = 8 ∨ w = 16 ∨ w = 32 ∨ w = 64) (hx : x < 2 ^ w) (hp : pos < w) :
    Nat.testBit (SetBit w x pos b) pos = b ∧
    ∀ q, q ≠ pos → Nat.testBit (SetBit w x pos b) q = Nat.testBit x q := by
  have hmask : (1 <<< pos) % 2 ^ w = 2 ^ pos := by
    rw [Nat.shiftLeft_eq, one_mul]
    exact Nat.mod_eq_of_lt (Nat.pow_lt_pow_right one_lt_two hp)
  cases b with
  | true =>
    constructor
    · simp [SetBit, hmask, Nat.testBit_lor, Nat.testBit_two_pow_self]
    · intro q hq
      simp [SetBit, hmask, Nat.testBit_lor,
        Nat.testBit_two_pow_of_ne (Ne.symm hq)]
  | false =>
    constructor
    · simp [SetBit, hmask, Nat.testBit_land, Nat.testBit_xor,
        Nat.testBit_two_pow_sub_one, Nat.testBit_two_pow_self, hp]
    · intro q hq
      by_cases hqw : q < w
      · simp [SetBit, hmask, Nat.testBit_land, Nat.testBit_xor,
          Nat.testBit_two_pow_sub_one, hqw,
          Nat.testBit_two_pow_of_ne (Ne.symm hq)]
      · have hxq : Nat.testBit x q = false :=
          Nat.testBit_eq_false_of_lt
            (lt_of_lt_of_le hx (Nat.pow_le_pow_right (by norm_num)
              (not_lt.mp hqw)))
        simp [SetBit, hmask, Nat.testBit_land, Nat.testBit_xor,
          Nat.testBit_two_pow_sub_one, hqw, hxq,
          Nat.testBit_two_pow_of_ne (Ne.symm hq)]

/-- Witness for C6 at `w = 8`, `x = 5`, `pos = 3`, `b = true`
(the spec's example `SetBit(0u8, 3, true) == 8` family). -/
theorem setBit_spec_witness :
    Nat.testBit (SetBit 8 5 3 true) 3 = true ∧
    ∀ q, q ≠ 3 → Nat.testBit (SetBit 8 5 3 true) q = Nat.testBit 5 q :=
  setBit_spec 8 5 3 true (Or.inl rfl) (by norm_num) (by norm_num)

/-- C3: for `min ≤ max`, `ClampValue` succeeds with a result inside
`[min, max]`, returning `val` itself when `val` is already in range; for
`min > max` it fails with the invalid-argument condition. -/
theorem clampValue_spec {α : Type} [LinearOrder α] (val lo hi : α) :
    (lo ≤ hi → ∃ r, ClampValue val lo hi = some r ∧ lo ≤ r ∧ r ≤ hi ∧
      (lo ≤ val → val ≤ hi → r = val)) ∧
    (hi < lo → ClampValue val lo hi = none) := by
  constructor
  · intro hle
    refine ⟨Min.min hi (Max.max lo val), ?_, ?_, min_le_left _ _, ?_⟩
    · simp [ClampValue, hle]
    · exact le_min hle (le_max_left _ _)
    · intro h1 h2
      rw [max_eq_right h1, min_eq_right h2]
  · intro hlt
    simp [ClampValue, not_le.mpr hlt]

/-- Witness for C3 at concrete inputs over `Int`. -/
theorem clampValue_spec_witness :
    (∃ r, ClampValue (15 : Int) 0 10 = some r ∧ 0 ≤ r ∧ r ≤ 10 ∧
      (0 ≤ (15 : Int) → (15 : Int) ≤ 10 → r = 15)) ∧
    ClampValue (3 : Int) 7 2 = none :=
  ⟨(clampValue_spec (15 : Int) 0 10).1 (by norm_num),
   (clampValue_spec (3 : Int) 7 2).2 (by norm_num)⟩

/-- C4: `ClampValueAndWarn` returns the same value as `ClampValue`, fails
in exactly the same `min > max` cases, and emits a diagnostic iff the value
was outside `[min, max]`. -/
theorem clampValueAndWarn_spec {α : Type} [LinearOrder α] (val lo hi : α) :
    (ClampValueAndWarn val lo hi).map Prod.fst = ClampValue val lo hi ∧
    (hi < lo → ClampValueAndWarn val lo hi = none) ∧
    (∀ r b, ClampValueAndWarn val lo hi = some (r, b) →
      (b = true ↔ (val < lo ∨ hi < val))) := by
  refine ⟨?_, ?_, ?_⟩
  · by_cases hle : lo ≤ hi
    · by_cases h1 : val < lo
      · have hmax : Max.max lo val = lo := max_eq_left h1.le
        have hmin : Min.min hi lo = lo := min_eq_right hle
        simp [ClampValueAndWarn, ClampValue, hle, h1, hmax, hmin]
      · by_cases h2 : val > hi
        · have hmax : Max.max lo val = val := max_eq_right (not_lt.mp h1)
          have hmin : Min.min hi val = hi := min_eq_left h2.le
          simp [ClampValueAndWarn, ClampValue, hle, h1, h2, hmax, hmin]
        · have hmax : Max.max lo val = val := max_eq_right (not_lt.mp h1)
          have hmin : Min.min hi val = val := min_eq_right (not_lt.mp h2)
          simp [ClampValueAndWarn, ClampValue, hle, h1, h2, hmax, hmin]
    · simp [ClampValueAndWarn, ClampValue, hle]
  · intro hlt
    simp [ClampValueAndWarn, not_le.mpr hlt]
  · intro r b hsome
    by_cases hle : lo ≤ hi
    · by_cases h1 : val < lo
      · simp only [ClampValueAndWarn, hle, if_pos, h1, if_true] at hsome
        simp only [if_pos hle, Option.some.injEq, Prod.mk.injEq] at hsome
        simp [← hsome.2, h1]
      · by_cases h2 : val > hi
        · simp only [ClampValueAndWarn, if_pos hle, if_neg h1, if_pos h2,
            Option.some.injEq, Prod.mk.injEq] at hsome
          simp [← hsome.2, h2]
        · simp only [ClampValueAndWarn, if_pos hle, if_neg h1, if_neg h2,
            Option.some.injEq, Prod.mk.injEq] at hsome
          simp [← hsome.2, h1, h2]
    · simp [ClampValueAndWarn, hle] at hsome

/-- Witness for C4 at concrete inputs over `Int`. -/
theorem clampValueAndWarn_spec_witness :
    (ClampValueAndWarn (15 : Int) 0 10).map Prod.fst = ClampValue (15 : Int) 0 10 ∧
    ((10 : Int) < 0 → ClampValueAndWarn (15 : Int) 0 10 = none) ∧
    (∀ r b, ClampValueAndWarn (15 : Int) 0 10 = some (r, b) →
      (b = true ↔ ((15 : Int) < 0 ∨ (10 : Int) < 15))) :=
  clampValueAndWarn_spec (15 : Int) 0 10

section Maps

variable {α β : Type} [LinearOrder α]

/-- `map[key] = value` on a `std::map` modelled as a key-ascending
association list: walk to the ordered position, overwriting an existing
equal key. -/
def mapInsert (k : α) (v : β) : List (α × β) → List (α × β)
  | [] => [(k, v)]
  | (k', v') :: rest =>
    if k < k' then (k, v) :: (k', v') :: rest
    else if k = k' then (k, v) :: rest
    else (k', v') :: mapInsert k v rest

/-- `map.find(key)` on the association-list model: first match. -/
def mapLookup (k : α) : List (α × β) → Option β
  | [] => none
  | (k', v') :: rest => if k = k' then some v' else mapLookup k rest

/-- The `std::map` representation invariant: pairs in strictly ascending
key order (hence unique keys). -/
def mapWF (m : List (α × β)) : Prop :=
  List.Chain' (fun p q => p.1 < q.1) m

/-- `GetKeys` from utility.hpp: push each key in iteration order. -/
def GetKeys (m : List (α × β)) : List α :=
  m.map (fun p => p.1)

/-- `GetKeysAndValues` from utility.hpp: push each pair in iteration
order. -/
def GetKeysAndValues (m : List (α × β)) : List (α × β) :=
  m.map (fun p => (p.1, p.2))

/-- One-argument `MakeFromKeysAndValues` from utility.hpp:
`map[cur_pair.first] = cur_pair.second` for each pair in sequence order. -/
def MakeFromKeysAndValues (pairs : List (α × β)) : List (α × β) :=
  pairs.foldl (fun m p => mapInsert p.1 p.2 m) []

/-- Two-argument `MakeFromKeysAndValues` from utility.hpp:
`assert(keys.size() == values.size())` (failure modelled as `none`), then
`map[keys[idx]] = values[idx]` for each index in order, which is the
one-argument version on the positional zip. -/
def MakeFromKeysAndValues2 (keys : List α) (values : List β) :
    Option (List (α × β)) :=
  if keys.length = values.length then
    some (MakeFromKeysAndValues (keys.zip values))
  else none

end Maps

theorem mapLookup_mapInsert {α β : Type} [LinearOrder α]
    (k k' : α) (v : β) (m : List (α × β)) :
    mapLookup k (mapInsert k' v m) =
      if k = k' then some v else mapLookup k m := by
  induction m with
  | nil =>
    by_cases h : k = k' <;> simp [mapInsert, mapLookup, h]
  | cons p rest ih =>
    obtain ⟨k₀, v₀⟩ := p
    rcases lt_trichotomy k' k₀ with h1 | h1 | h1
    · by_cases h : k = k' <;> simp [mapInsert, mapLookup, h1, h]
    · subst h1
      by_cases h : k = k' <;> simp [mapInsert, mapLookup, h]
    · have hlt : ¬ k' < k₀ := not_lt.mpr h1.le
      have hne : k' ≠ k₀ := ne_of_gt h1
      by_cases h : k = k'
      · subst h
        simp [mapInsert, mapLookup, hlt, hne, ih]
      · by_cases h0 : k = k₀
        · subst h0
          simp [mapInsert, mapLookup, hlt, hne, h]
        · simp [mapInsert, mapLookup, hlt, hne, h0, h, ih]

theorem mapLookup_append {α β : Type} [LinearOrder α]
    (k : α) (l₁ l₂ : List (α × β)) :
    mapLookup k (l₁ ++ l₂) =
      match mapLookup k l₁ with
      | some v => some v
      | none => mapLookup k l₂ := by
  induction l₁ with
  | nil => simp [mapLookup]
  | cons p rest ih =>
    obtain ⟨k', v'⟩ := p
    by_cases h : k = k' <;> simp [mapLookup, h, ih]

theorem mapLookup_foldl_mapInsert {α β : Type} [LinearOrder α]
    (pairs : List (α × β)) (acc : List (α × β)) (k : α) :
    mapLookup k (pairs.foldl (fun m p => mapInsert p.1 p.2 m) acc) =
      match mapLookup k pairs.reverse with
      | some v => some v
      | none => mapLookup k acc := by
  induction pairs generalizing acc with
  | nil => simp [mapLookup]
  | cons p rest ih =>
    obtain ⟨k', v'⟩ := p
    rw [List.foldl_cons, ih, List.reverse_cons, mapLookup_append]
    cases hrev : mapLookup k rest.reverse with
    | some v => rfl
    | none =>
      by_cases h : k = k' <;> simp [mapLookup_mapInsert, mapLookup, h]

/-- Looking a key up in the map built from a pair sequence finds the value
of the LAST pair carrying that key: last-write-wins. -/
theorem mapLookup_makeFromKeysAndValues {α β : Type} [LinearOrder α]
    (pairs : List (α × β)) (k : α) :
    mapLookup k (MakeFromKeysAndValues pairs) = mapLookup k pairs.reverse := by
  rw [MakeFromKeysAndValues, mapLookup_foldl_mapInsert]
  cases mapLookup k pairs.reverse <;> simp [mapLookup]

theorem mapLookup_isSome_iff {α β : Type} [LinearOrder α]
    (k : α) (l : List (α × β)) :
    (mapLookup k l).isSome = true ↔ k ∈ l.map (fun p => p.1) := by
  induction l with
  | nil => simp [mapLookup]
  | cons p rest ih =>
    obtain ⟨k', v'⟩ := p
    by_cases h : k = k' <;> simp [mapLookup, h, ih]

theorem mapLookup_reverse_of_nodup {α β : Type} [LinearOrder α]
    (k : α) (l : List (α × β)) (h : (l.map (fun p => p.1)).Nodup) :
    mapLookup k l.reverse = mapLookup k l := by
  induction l with
  | nil => rfl
  | cons p rest ih =>
    obtain ⟨k', v'⟩ := p
    simp only [List.map_cons, List.nodup_cons] at h
    obtain ⟨hk', hrest⟩ := h
    rw [List.reverse_cons, mapLookup_append, ih hrest]
    by_cases hk : k = k'
    · subst hk
      have hnone : mapLookup k rest = none := by
        cases hs : mapLookup k rest with
        | none => rfl
        | some v =>
          exact absurd ((mapLookup_isSome_iff k rest).mp (by simp [hs])) hk'
      simp [hnone, mapLookup]
    · cases hs : mapLookup k rest <;> simp [hs, mapLookup, hk]

theorem mapWF_nodup_keys {α β : Type} [LinearOrder α]
    (m : List (α × β)) (h : mapWF m) :
    (m.map (fun p => p.1)).Nodup := by
  haveI : IsTrans (α × β) (fun p q => p.1 < q.1) :=
    ⟨fun _ _ _ h1 h2 => lt_trans h1 h2⟩
  have hpw : m.Pairwise (fun p q => p.1 < q.1) :=
    List.chain'_iff_pairwise.mp h
  rw [List.nodup_iff_sublist]
  intro a ha
  have := (List.pairwise_map.mpr (hpw.imp (fun hlt => ne_of_lt hlt)))
  exact (List.nodup_iff_sublist.mp this) a ha

/-- C2: the two-argument `MakeFromKeysAndValues` fails exactly when the key
and value sequences have different lengths; on equal lengths it builds the
map by inserting the positionally zipped pairs in order, and a lookup in
the result finds the value of the last pair with that key
(last-write-wins). -/
theorem makeFromKeysAndValues_two_spec {α β : Type} [LinearOrder α]
    (keys : List α) (values : List β) :
    (MakeFromKeysAndValues2 keys values = none ↔
      keys.length ≠ values.length) ∧
    (keys.length = values.length →
      MakeFromKeysAndValues2 keys values =
        some (MakeFromKeysAndValues (keys.zip values))) ∧
    (∀ m, MakeFromKeysAndValues2 keys values = some m →
      ∀ k, mapLookup k m = mapLookup k (keys.zip values).reverse) := by
  refine ⟨?_, ?_, ?_⟩
  · by_cases h : keys.length = values.length <;>
      simp [MakeFromKeysAndValues2, h]
  · intro h
    simp [MakeFromKeysAndValues2, h]
  · intro m hm k
    by_cases h : keys.length = values.length
    · simp only [MakeFromKeysAndValues2, if_pos h, Option.some.injEq] at hm
      rw [← hm, mapLookup_makeFromKeysAndValues]
    · simp [MakeFromKeysAndValues2, h] at hm

/-- Witness for C2: keys `[1, 2, 1]` and values `[10, 20, 30]` have equal
lengths, and looking up key `1` in the built map finds `30`, the value of
the last pair with key `1`. -/
theorem makeFromKeysAndValues_two_spec_witness :
    mapLookup 1 (MakeFromKeysAndValues
        (([1, 2, 1] : List Nat).zip ([10, 20, 30] : List Nat))) =
      mapLookup 1 (([1, 2, 1] : List Nat).zip
        ([10, 20, 30] : List Nat)).reverse :=
  (makeFromKeysAndValues_two_spec [1, 2, 1] [10, 20, 30]).2.2
    (MakeFromKeysAndValues (([1, 2, 1] : List Nat).zip [10, 20, 30]))
    (by simp [MakeFromKeysAndValues2]) 1

/-- C7: rebuilding a well-formed map from its extracted key/value pairs
reproduces exactly the original key/value content: every lookup agrees. -/
theorem roundTrip_spec {α β : Type} [LinearOrder α]
    (m : List (α × β)) (h : mapWF m) :
    ∀ k, mapLookup k (MakeFromKeysAndValues (GetKeysAndValues m)) =
      mapLookup k m := by
  intro k
  have hkeys : (m.map (fun p => p.1)).Nodup := mapWF_nodup_keys m h
  have hgv : GetKeysAndValues m = m := by simp [GetKeysAndValues]
  rw [hgv, mapLookup_makeFromKeysAndValues,
    mapLookup_reverse_of_nodup k m hkeys]

/-- Witness for C7 on the concrete map `{1 ↦ 10, 2 ↦ 20}` at key `1`. -/
theorem roundTrip_spec_witness :
    mapLookup 1 (MakeFromKeysAndValues
        (GetKeysAndValues ([(1, 10), (2, 20)] : List (Nat × Nat)))) =
      mapLookup 1 ([(1, 10), (2, 20)] : List (Nat × Nat)) :=
  roundTrip_spec [(1, 10), (2, 20)]
    (by norm_num [mapWF, List.chain'_cons, List.chain'_singleton]) 1

/-- C10: `GetKeys` returns exactly the first components of the pairs
returned by `GetKeysAndValues`: both traverse the map in the same
iteration order. -/
theorem getKeys_eq_map_fst_getKeysAndValues {α β : Type} [LinearOrder α]
    (m : List (α × β)) :
    GetKeys m = (GetKeysAndValues m).map (fun p => p.1) := by
  simp [GetKeys, GetKeysAndValues]

section Sets

variable {α : Type} [LinearOrder α]

/-- `IsSubset` from utility.hpp: build a `std::map` marking each element of
`set` with `0x01`, then scan `candidate_subset`, returning `false` on the
first element not found in the map (modelled by `List.all`). -/
def IsSubset (set candidate_subset : List α) : Bool :=
  let items_map := set.foldl (fun m item => mapInsert item (1 : Nat) m) []
  candidate_subset.all (fun item => (mapLookup item items_map).isSome)

/-- `SetsEqual` from utility.hpp: `IsSubset(set1, set2) && IsSubset(set2,
set1)`. -/
def SetsEqual (set1 set2 : List α) : Bool :=
  IsSubset set1 set2 && IsSubset set2 set1

end Sets

theorem mapLookup_marker_foldl {α : Type} [LinearOrder α]
    (set : List α) (item : α) :
    (mapLookup item
        (set.foldl (fun m x => mapInsert x (1 : Nat) m) [])).isSome = true ↔
      item ∈ set := by
  have h1 : set.foldl (fun m x => mapInsert x (1 : Nat) m)
      ([] : List (α × Nat)) =
      MakeFromKeysAndValues (set.map (fun x => (x, 1))) := by
    rw [MakeFromKeysAndValues, List.foldl_map]
  rw [h1, mapLookup_makeFromKeysAndValues, mapLookup_isSome_iff]
  simp [List.map_reverse, List.map_map, List.mem_reverse, Function.comp]

/-- C8: `IsSubset set candidate` is true iff every element of `candidate`
occurs in `set` (membership only, multiplicity ignored), and `SetsEqual` is
the two-way `IsSubset` conjunction, equivalent to the two sequences having
identical distinct-element membership. -/
theorem isSubset_setsEqual_spec {α : Type} [LinearOrder α]
    (set candidate_subset set1 set2 : List α) :
    (IsSubset set candidate_subset = true ↔
      ∀ x ∈ candidate_subset, x ∈ set) ∧
    (SetsEqual set1 set2 = true ↔
      (IsSubset set1 set2 = true ∧ IsSubset set2 set1 = true)) ∧
    (SetsEqual set1 set2 = true ↔ ∀ x, x ∈ set1 ↔ x ∈ set2) := by
  have hsub : ∀ (s c : List α),
      (IsSubset s c = true ↔ ∀ x ∈ c, x ∈ s) := by
    intro s c
    simp [IsSubset, List.all_eq_true, mapLookup_marker_foldl]
  refine ⟨hsub set candidate_subset, ?_, ?_⟩
  · simp [SetsEqual]
  · rw [SetsEqual, Bool.and_eq_true, hsub set1 set2, hsub set2 set1]
    constructor
    · rintro ⟨h12, h21⟩ x
      exact ⟨fun hx => h21 x hx, fun hx => h12 x hx⟩
    · intro h
      exact ⟨fun x hx => (h x).mpr hx, fun x hx => (h x).mp hx⟩

/-- Witness for C8 at the spec's example sets: `SetsEqual [1,2] [2,1]` and
its membership characterization. -/
theorem isSubset_setsEqual_spec_witness :
    (IsSubset [1, 2] ([1, 2, 2] : List Nat) = true ↔
      ∀ x ∈ ([1, 2, 2] : List Nat), x ∈ ([1, 2] : List Nat)) ∧
    (SetsEqual [1, 2] ([2, 1] : List Nat) = true ↔
      (IsSubset [1, 2] ([2, 1] : List Nat) = true ∧
        IsSubset [2, 1] ([1, 2] : List Nat) = true)) ∧
    (SetsEqual [1, 2] ([2, 1] : List Nat) = true ↔
      ∀ x, x ∈ ([1, 2] : List Nat) ↔ x ∈ ([2, 1] : List Nat)) :=
  isSubset_setsEqual_spec [1, 2] [1, 2, 2] [1, 2] [2, 1]

section Strings

/-- Leading-block test: `strStartsWith sub s` is true iff `s` begins with
`sub`.  This is the per-position step of `std::string::find`. -/
def strStartsWith : List Char → List Char → Bool
  | [], _ => true
  | _ :: _, [] => false
  | c :: cs, d :: ds => c == d && strStartsWith cs ds

/-- `candidate_string.find(substring) != npos` from utility.hpp, modelled
on strings as character lists: scan positions left to right for a match. -/
def strContains (sub : List Char) : List Char → Bool
  | [] => strStartsWith sub []
  | c :: cs => strStartsWith sub (c :: cs) || strContains sub cs

/-- `CheckAllStringsForSubstring` from utility.hpp: return `false` at the
first string in which `find` reports no occurrence (modelled by
`List.all`). -/
def CheckAllStringsForSubstring (strings : List (List Char))
    (substring : List Char) : Bool :=
  strings.all (fun candidate_string => strContains substring candidate_string)

end Strings

theorem strStartsWith_iff (sub s : List Char) :
    strStartsWith sub s = true ↔ ∃ r, s = sub ++ r := by
  induction sub generalizing s with
  | nil => simp [strStartsWith]
  | cons c cs ih =>
    cases s with
    | nil => simp [strStartsWith]
    | cons d ds =>
      simp only [strStartsWith, Bool.and_eq_true, beq_iff_eq, ih,
        List.cons_append, List.cons.injEq]
      constructor
      · rintro ⟨hcd, r, hr⟩
        exact ⟨r, hcd.symm, hr⟩
      · rintro ⟨r, hdc, hr⟩
        exact ⟨hdc.symm, r, hr⟩

theorem strContains_iff (sub s : List Char) :
    strContains sub s = true ↔ ∃ l r, s = l ++ sub ++ r := by
  induction s with
  | nil =>
    simp only [strContains, strStartsWith_iff]
    constructor
    · rintro ⟨r, hr⟩
      exact ⟨[], r, by simpa using hr⟩
    · rintro ⟨l, r, hlr⟩
      obtain ⟨hls, hr⟩ := List.append_eq_nil.mp hlr.symm
      obtain ⟨hl, hsub⟩ := List.append_eq_nil.mp hls
      exact ⟨[], by simp [hsub]⟩
  | cons c cs ih =>
    simp only [strContains, Bool.or_eq_true, strStartsWith_iff, ih]
    constructor
    · rintro (⟨r, hr⟩ | ⟨l, r, hlr⟩)
      · exact ⟨[], r, by simpa using hr⟩
      · exact ⟨c :: l, r, by simp [hlr]⟩
    · rintro ⟨l, r, hlr⟩
      cases l with
      | nil => exact Or.inl ⟨r, by simpa using hlr⟩
      | cons x xs =>
        right
        simp only [List.cons_append, List.cons.injEq] at hlr
        exact ⟨xs, r, hlr.2⟩

/-- C9: `CheckAllStringsForSubstring` is true iff the substring occurs
within every string of the sequence; the empty substring occurs in every
string (including the empty one), and the empty sequence vacuously yields
true. -/
theorem checkAllStringsForSubstring_spec (strings : List (List Char))
    (substring : List Char) :
    (CheckAllStringsForSubstring strings substring = true ↔
      ∀ s ∈ strings, ∃ l r, s = l ++ substring ++ r) ∧
    (∀ s : List Char, strContains [] s = true) ∧
    CheckAllStringsForSubstring [] substring = true := by
  refine ⟨?_, ?_, rfl⟩
  · simp [CheckAllStringsForSubstring, List.all_eq_true, strContains_iff]
  · intro s
    exact (strContains_iff [] s).mpr ⟨[], s, by simp⟩

/-- Witness for C9 at the spec's example
`CheckAllStringsForSubstring(["abc","xabcy"], "abc") == true`. -/
theorem checkAllStringsForSubstring_spec_witness :
    (CheckAllStringsForSubstring [['a', 'b', 'c'], ['x', 'a', 'b', 'c', 'y']]
        ['a', 'b', 'c'] = true ↔
      ∀ s ∈ [['a', 'b', 'c'], ['x', 'a', 'b', 'c', 'y']],
        ∃ l r, s = l ++ ['a', 'b', 'c'] ++ r) ∧
    (∀ s : List Char, strContains [] s = true) ∧
    CheckAllStringsForSubstring [] ['a', 'b', 'c'] = true :=
  checkAllStringsForSubstring_spec [['a', 'b', 'c'], ['x', 'a', 'b', 'c', 'y']]
    ['a', 'b', 'c']

section Alignment

/-- `CheckAlignment` from utility.hpp with the runtime address
`(uintptr_t)&item` passed explicitly: `(item_ptr_val % desired_alignment)
== 0`.  (The `verbose` flag only selects informational prints and does not
affect the returned value.) -/
def CheckAlignment (item_ptr_val : Nat) (desired_alignment : Nat) : Bool :=
  item_ptr_val % desired_alignment == 0

/-- `RequireAlignment` from utility.hpp with the runtime address passed
explicitly: throw a `std::runtime_error` carrying the address and the
required alignment when `(item_ptr_val % desired_alignment) != 0`,
otherwise return with no effect. -/
def RequireAlignment (item_ptr_val : Nat) (desired_alignment : Nat) :
    Except String Unit :=
  if item_ptr_val % desired_alignment ≠ 0 then
    Except.error ("Item @ " ++ toString item_ptr_val
      ++ " not aligned at desired alignment of "
      ++ toString desired_alignment ++ " bytes")
  else Except.ok ()

end Alignment

/-- C5: `CheckAlignment` is true iff the address is a multiple of the
alignment, and `RequireAlignment` fails — with a message containing the
address and the required alignment — exactly when `CheckAlignment` is
false, and otherwise has no effect.  Alignment `0` is excluded: there the
source's `%` is undefined behavior. -/
theorem alignment_spec (addr align : Nat) (_h : 0 < align) :
    (CheckAlignment addr align = true ↔ addr % align = 0) ∧
    (CheckAlignment addr align = false ↔
      ∃ msg, RequireAlignment addr align = Except.error msg ∧
        ∃ s₁ s₂ s₃, msg = s₁ ++ toString addr ++ s₂ ++ toString align ++ s₃) ∧
    (CheckAlignment addr align = true →
      RequireAlignment addr align = Except.ok ()) := by
  refine ⟨by simp [CheckAlignment], ?_, ?_⟩
  · by_cases hm : addr % align = 0
    · simp [CheckAlignment, RequireAlignment, hm]
    · simp only [CheckAlignment, beq_eq_false_iff_ne, ne_eq, hm,
        not_false_eq_true, true_iff]
      exact ⟨"Item @ " ++ toString addr
          ++ " not aligned at desired alignment of "
          ++ toString align ++ " bytes",
        by simp [RequireAlignment, hm],
        "Item @ ", " not aligned at desired alignment of ", " bytes", rfl⟩
  · intro hc
    have hm : addr % align = 0 := by simpa [CheckAlignment] using hc
    simp [RequireAlignment, hm]

/-- Witness for C5 at address `8` and alignment `4`. -/
theorem alignment_spec_witness :
    (CheckAlignment 8 4 = true ↔ 8 % 4 = 0) ∧
    (CheckAlignment 8 4 = false ↔
      ∃ msg, RequireAlignment 8 4 = Except.error msg ∧
        ∃ s₁ s₂ s₃, msg = s₁ ++ toString (8 : Nat) ++ s₂
          ++ toString (4 : Nat) ++ s₃) ∧
    (CheckAlignment 8 4 = true → RequireAlignment 8 4 = Except.ok ()) :=
  alignment_spec 8 4 (by norm_num)
